import Mathlib

/-!
Verification of the Mermaid chart generator service
(src/Mermaid_chart_generator_agent.py).

Text is modelled as lists of characters.  The regular-expression search
performed by extract_mermaid_code (pattern "```mermaid(.*?)```" with
re.DOTALL, via re.search) is modelled by an explicit leftmost scan that
takes the shortest interior, which is exactly the semantics of a leftmost
non-greedy match.  File-system and subprocess outcomes are modelled by
explicit environment records, and raised-then-caught exceptions are
modelled by the corresponding failure value of those records.
-/

/-- Text is modelled as a list of characters. -/
abbrev Str := List Char

/-- The backquote character, written numerically. -/
def bq : Char := Char.ofNat 96

/-- The opening tag of a mermaid fenced block. -/
def mOpen : Str := "```mermaid".data

/-- A fence delimiter. -/
def mFence : Str := "```".data

/-- The whitespace characters recognised by Python str.strip(). -/
def isPySpace (c : Char) : Bool :=
  c == ' ' || c == '\t' || c == '\n' || c == '\r' || c == '\x0b' || c == '\x0c'

/-- Drop trailing whitespace, as Python str.rstrip(). -/
def rstrip (s : Str) : Str := (s.reverse.dropWhile isPySpace).reverse

/-- Python str.strip(): drop leading and trailing whitespace. -/
def pyStrip (s : Str) : Str := rstrip (s.dropWhile isPySpace)

/-- Index of the first occurrence of pat inside s, if any. -/
def listFind (pat : Str) : Str → Option Nat
  | [] => if pat.isPrefixOf ([] : Str) then some 0 else none
  | s@(_ :: t) => if pat.isPrefixOf s then some 0 else (listFind pat t).map (· + 1)

/-- Whether pat occurs somewhere inside s. -/
def containsSub (pat s : Str) : Bool := (listFind pat s).isSome

/-- The search of re.search("```mermaid(.*?)```", text, re.DOTALL): scan
positions left to right; at the first position where the opening tag
matches and a closing fence occurs afterwards, return the shortest
interior; when the opening tag matches but no fence follows, the engine
moves on to later start positions. -/
def searchMermaid : Str → Option Str
  | [] => none
  | s@(_ :: t) =>
    if mOpen.isPrefixOf s then
      match listFind mFence (s.drop mOpen.length) with
      | some j => some ((s.drop mOpen.length).take j)
      | none => searchMermaid t
    else searchMermaid t

/-- extract_mermaid_code from the source: the interior of the first
mermaid fenced block, trimmed, or none when no block exists. -/
def extract_mermaid_code (t : Str) : Option Str := (searchMermaid t).map pyStrip

/-- The exact text written to readme.md by save_to_readme: heading line,
opening fence line, the markup verbatim, then a closing fence line. -/
def save_to_readme_content (m : Str) : Str :=
  "## Mermaid Diagram\n```mermaid\n".data ++ m ++ "\n```\n".data

/-! ### Rendering pipeline (convert_readme_to_png)

The pipeline reads readme.md, re-runs the extractor over the file
contents, writes a temporary HTML page and shells out to wkhtmltoimage.
Its external effects are modelled by a record of outcomes; an exception
raised by a step corresponds to the failing value of that field and, in
the source, is caught by the enclosing try/except and turned into the
return value False. -/

/-- External outcomes seen by convert_readme_to_png: the content of
readme.md on disk (none models a missing file whose open() raises), and
whether each effectful step succeeds. -/
structure RenderEnv where
  readmeContent : Option Str
  writeTempOk : Bool
  imgkitOk : Bool
  removeOk : Bool
deriving DecidableEq

/-- convert_readme_to_png from the source.  It takes no markup argument:
its only textual input is the readme.md content read back from disk, over
which it re-runs extract_mermaid_code.  The Python guard
"if not mermaid_code" treats both None and the empty string as failure.
Every failing step yields the return value false (the source catches all
exceptions and returns False). -/
def convert_readme_to_png (env : RenderEnv) : Bool :=
  match env.readmeContent with
  | none => false
  | some content =>
    match extract_mermaid_code content with
    | none => false
    | some code =>
      if code.isEmpty then false
      else env.writeTempOk && env.imgkitOk && env.removeOk

/-! ### HTTP responses and the rendered template -/

/-- HTML-escape of a single character, as performed by Jinja2 autoescape
on the interpolated template variable. -/
def escChar (c : Char) : Str :=
  if c = '&' then "&amp;".data
  else if c = '<' then "&lt;".data
  else if c = '>' then "&gt;".data
  else if c = '"' then "&#34;".data
  else if c = Char.ofNat 39 then "&#39;".data
  else [c]

/-- HTML-escape of a string. -/
def htmlEscape : Str → Str
  | [] => []
  | c :: t => escChar c ++ htmlEscape t

/-- Literal template text before the mermaid-code section. -/
def tplHead : Str :=
  "\n         <!DOCTYPE html>\n        <html>                                  \n        <h1>Mermaid Diagram Generator</h1>\n\n        ".data

/-- Literal template text opening the mermaid-code section. -/
def tplPreOpen : Str :=
  "\n            <h2>Generated Mermaid Diagram:</h2>\n            <div id=\"mermaid-diagram\">\n                <pre class=\"mermaid\">\n                    ".data

/-- Literal template text closing the mermaid-code section. -/
def tplPreClose : Str :=
  "\n                </pre>\n            </div>\n        ".data

/-- Literal template text between the two conditional sections. -/
def tplMid : Str := "\n\n        ".data

/-- The img tag referencing the image-fetch route. -/
def imgPat : Str := "<img src=\"/get_png\"".data

/-- Literal template text of the PNG section before the img tag. -/
def imgSecPre : Str :=
  "\n            <h2>Mermaid Diagram (PNG):</h2>\n            ".data

/-- Literal template text of the PNG section after the img tag. -/
def imgSecPost : Str := " alt=\"Mermaid Diagram\">\n        ".data

/-- The conditional PNG section of the template. -/
def imgSection : Str := imgSecPre ++ imgPat ++ imgSecPost

/-- Literal template text after the conditional sections. -/
def tplTail : Str :=
  "\n\n        <script src=\"https://cdn.jsdelivr.net/npm/mermaid@10.2.0/dist/mermaid.min.js\"></script>\n        <script>\n            mermaid.initialize(\x7b startOnLoad: true \x7d);\n        </script>\n        </html>\n    ".data

/-- The HTML body produced by render_template_string for the given
template variables: the mermaid-code section appears when mermaid_code is
a non-empty (truthy) string and holds the escaped interpolation, and the
PNG section appears exactly when png_available is true. -/
def renderBody (code : Str) (png : Bool) : Str :=
  tplHead ++ (if code.isEmpty then [] else tplPreOpen ++ htmlEscape code ++ tplPreClose)
    ++ tplMid ++ (if png then imgSection else []) ++ tplTail

/-- An HTTP response of the service. -/
inductive Resp where
  | err (msg : Str) (status : Nat)
  | page (mermaid_code : Str) (png_available : Bool) (status : Nat)
  | fileResp (bytes : List Nat) (mime : Str) (status : Nat)
  | plain (body : Str) (status : Nat)
deriving DecidableEq

/-- The HTTP status of a response. -/
def Resp.statusOf : Resp → Nat
  | .err _ s => s
  | .page _ _ s => s
  | .fileResp _ _ s => s
  | .plain _ s => s

/-- The textual body of a response; for a page response it is the
rendered template. -/
def Resp.bodyOf : Resp → Str
  | .err m _ => "\x7b\"error\": \"".data ++ m ++ "\"\x7d".data
  | .page c p _ => renderBody c p
  | .fileResp _ _ _ => []
  | .plain b _ => b

/-! ### The /mermaid endpoint -/

/-- The fixed message used when the model call fails. -/
def failedMsg : Str := "Failed to generate Mermaid code.".data

/-- The fixed message used when no fenced block is found in the reply. -/
def notFoundMsg : Str := "Mermaid code not found in the response.".data

/-- The body of the 400 validation error. -/
def errRequired : Str :=
  "JSON payload with \x27project_description\x27 key required.".data

/-- The JSON key checked by the endpoint. -/
def pdKey : Str := "project_description".data

/-- The parsed request body: none models a null/absent JSON value, some
entries a JSON object with string values. -/
abbrev ReqBody := Option (List (Str × Str))

/-- External outcomes seen by one request: the model reply (none models
an exception inside generate_mermaid_code, which the source catches and
turns into None), whether the readme write succeeds, the prior content of
readme.md, and the renderer step outcomes. -/
structure WorldEnv where
  genResult : Option Str
  saveOk : Bool
  initialReadme : Option Str
  writeTempOk : Bool
  imgkitOk : Bool
  removeOk : Bool
deriving DecidableEq

/-- The outcome of one request: the response plus which pipeline stages
were actually entered. -/
structure EndpointResult where
  resp : Resp
  genInvoked : Bool
  extractInvoked : Bool
  saveInvoked : Bool
  renderInvoked : Bool
deriving DecidableEq

/-- The /mermaid handler from the source.  The validation mirrors the
guard (not data or key absent): an empty object is falsy and only key
presence is checked, never the value.  The reply and markup guards mirror
Python truthiness: None and the empty string both fail.  On the happy
path the handler writes readme.md (replacing any prior content when the
write succeeds) and then runs the renderer, whose only textual input is
the readme.md content on disk. -/
def mermaid_endpoint (body : ReqBody) (env : WorldEnv) : EndpointResult :=
  match body with
  | none => ⟨.err errRequired 400, false, false, false, false⟩
  | some entries =>
    if entries.isEmpty then ⟨.err errRequired 400, false, false, false, false⟩
    else
      match entries.lookup pdKey with
      | none => ⟨.err errRequired 400, false, false, false, false⟩
      | some _pd =>
        match env.genResult with
        | none => ⟨.page failedMsg false 200, true, false, false, false⟩
        | some reply =>
          if reply.isEmpty then ⟨.page failedMsg false 200, true, false, false, false⟩
          else
            match extract_mermaid_code reply with
            | none => ⟨.page notFoundMsg false 200, true, true, false, false⟩
            | some code =>
              if code.isEmpty then ⟨.page notFoundMsg false 200, true, true, false, false⟩
              else
                let readmeNow :=
                  if env.saveOk then some (save_to_readme_content code)
                  else env.initialReadme
                let png := convert_readme_to_png
                  ⟨readmeNow, env.writeTempOk, env.imgkitOk, env.removeOk⟩
                ⟨.page code png 200, true, true, true, true⟩

/-- The /get_png handler from the source: serve the PNG bytes when the
file exists, else a 404 with a plain-text body (FileNotFoundError is
caught). -/
def get_png (png : Option (List Nat)) : Resp :=
  match png with
  | some bytes => .fileResp bytes ("image/png".data) 200
  | none => .plain ("PNG image not found.".data) 404

/-- Split a string at newline characters (used to state the line
structure of the written readme.md). -/
def splitNL : Str → List Str
  | [] => [[]]
  | c :: t =>
    if c = '\n' then [] :: splitNL t
    else
      match splitNL t with
      | [] => [[c]]
      | l :: ls => (c :: l) :: ls

/-! ### Basic lemmas about isPrefixOf and listFind -/

theorem ipo_cons (a b : Char) (p s : Str) :
    (a :: p).isPrefixOf (b :: s) = (a == b && p.isPrefixOf s) := rfl

theorem ipo_nil_left (s : Str) : ([] : Str).isPrefixOf s = true := by
  cases s <;> rfl

theorem ipo_nil_right (a : Char) (p : Str) :
    (a :: p).isPrefixOf ([] : Str) = false := rfl

theorem ipo_iff_take (p : Str) : ∀ s : Str,
    p.isPrefixOf s = true ↔ s.take p.length = p := by
  induction p with
  | nil => intro s; simp [ipo_nil_left]
  | cons a p ih =>
    intro s
    cases s with
    | nil => simp [ipo_nil_right]
    | cons b s =>
      rw [ipo_cons]
      simp only [List.length_cons, List.take_succ_cons, Bool.and_eq_true, beq_iff_eq,
        List.cons.injEq]
      constructor
      · rintro ⟨rfl, h⟩; exact ⟨rfl, (ih s).1 h⟩
      · rintro ⟨rfl, h⟩; exact ⟨rfl, (ih s).2 h⟩

theorem ipo_self_append (p r : Str) : p.isPrefixOf (p ++ r) = true := by
  rw [ipo_iff_take, List.take_append_eq_append_take, List.take_length,
    Nat.sub_self, List.take_zero, List.append_nil]

theorem ipo_length {p s : Str} (h : p.isPrefixOf s = true) : p.length ≤ s.length := by
  rw [ipo_iff_take] at h
  have := congrArg List.length h
  simp only [List.length_take] at this
  omega

theorem ipo_of_take {p s : Str} {n : Nat} (h : p.isPrefixOf (s.take n) = true) :
    p.isPrefixOf s = true := by
  rw [ipo_iff_take] at h ⊢
  rw [List.take_take] at h
  rcases Nat.le_total p.length n with hle | hle
  · rwa [Nat.min_eq_left hle] at h
  · rw [Nat.min_eq_right hle] at h
    have hlen := congrArg List.length h
    simp only [List.length_take] at hlen
    have hn : n = p.length := by omega
    rwa [hn] at h

theorem ipo_append_long {p a : Str} (b : Str) (h : p.length ≤ a.length) :
    p.isPrefixOf (a ++ b) = p.isPrefixOf a := by
  have hkey : (a ++ b).take p.length = a.take p.length := by
    rw [List.take_append_eq_append_take, Nat.sub_eq_zero_of_le h, List.take_zero,
      List.append_nil]
  rcases hb : p.isPrefixOf a with _ | _
  · rcases hab : p.isPrefixOf (a ++ b) with _ | _
    · rfl
    · exfalso
      rw [ipo_iff_take, hkey] at hab
      have := (ipo_iff_take p a).2 hab
      rw [hb] at this
      exact Bool.noConfusion this
  · rw [ipo_iff_take] at hb
    rw [(ipo_iff_take p (a ++ b)).2 (by rw [hkey, hb])]

theorem ipo_head {a : Char} {p s : Str} (h : (a :: p).isPrefixOf s = true) :
    ∃ t, s = a :: t := by
  cases s with
  | nil => simp [ipo_nil_right] at h
  | cons b t =>
    rw [ipo_cons, Bool.and_eq_true, beq_iff_eq] at h
    exact ⟨t, by rw [h.1]⟩

theorem listFind_nil_neg {pat : Str} (hp : pat.isPrefixOf ([] : Str) = false) :
    listFind pat ([] : Str) = none := by
  simp [listFind, hp]

theorem listFind_nil_pos {pat : Str} (hp : pat.isPrefixOf ([] : Str) = true) :
    listFind pat ([] : Str) = some 0 := by
  simp [listFind, hp]

theorem listFind_cons_neg {pat : Str} {c : Char} {t : Str}
    (hp : pat.isPrefixOf (c :: t) = false) :
    listFind pat (c :: t) = (listFind pat t).map (· + 1) := by
  simp [listFind, hp]

theorem listFind_cons_pos {pat : Str} {c : Char} {t : Str}
    (hp : pat.isPrefixOf (c :: t) = true) :
    listFind pat (c :: t) = some 0 := by
  simp [listFind, hp]

theorem option_map_succ_eq_none {x : Option Nat} :
    x.map (· + 1) = none ↔ x = none := by
  cases x <;> simp

theorem option_map_succ_eq_some {x : Option Nat} {i : Nat} :
    x.map (· + 1) = some (i + 1) ↔ x = some i := by
  cases x <;> simp

theorem listFind_eq_none_iff (pat : Str) : ∀ s : Str,
    listFind pat s = none ↔ ∀ j, pat.isPrefixOf (s.drop j) = false := by
  intro s
  induction s with
  | nil =>
    rcases hp : pat.isPrefixOf ([] : Str) with _ | _
    · rw [listFind_nil_neg hp]
      simp [hp]
    · rw [listFind_nil_pos hp]
      constructor
      · intro h; exact Option.noConfusion h
      · intro h
        have := h 0
        rw [List.drop_nil] at this
        rw [hp] at this
        exact Bool.noConfusion this
  | cons c t ih =>
    rcases hp : pat.isPrefixOf (c :: t) with _ | _
    · rw [listFind_cons_neg hp, option_map_succ_eq_none]
      constructor
      · intro h j
        cases j with
        | zero => simpa using hp
        | succ j => simpa using (ih.1 h) j
      · intro h
        exact ih.2 (fun j => by simpa using h (j + 1))
    · rw [listFind_cons_pos hp]
      constructor
      · intro h; exact Option.noConfusion h
      · intro h
        have := h 0
        simp only [List.drop_zero] at this
        rw [hp] at this
        exact Bool.noConfusion this

theorem listFind_eq_some_iff (pat : Str) : ∀ (s : Str) (i : Nat),
    listFind pat s = some i ↔
      pat.isPrefixOf (s.drop i) = true ∧ ∀ j < i, pat.isPrefixOf (s.drop j) = false := by
  intro s
  induction s with
  | nil =>
    intro i
    rcases hp : pat.isPrefixOf ([] : Str) with _ | _
    · rw [listFind_nil_neg hp]
      simp [hp]
    · rw [listFind_nil_pos hp]
      constructor
      · intro h
        rw [← Option.some.inj h]
        exact ⟨by simpa using hp, fun j hj => absurd hj (Nat.not_lt_zero j)⟩
      · rintro ⟨-, hmin⟩
        congr 1
        by_contra hne
        have hpos : 0 < i := Nat.pos_of_ne_zero (fun h => hne h.symm)
        have := hmin 0 hpos
        rw [List.drop_nil, hp] at this
        exact Bool.noConfusion this
  | cons c t ih =>
    intro i
    rcases hp : pat.isPrefixOf (c :: t) with _ | _
    · rw [listFind_cons_neg hp]
      cases i with
      | zero =>
        constructor
        · intro h
          rcases hx : listFind pat t with _ | j
          · rw [hx] at h; exact Option.noConfusion h
          · rw [hx] at h
            simp at h
        · rintro ⟨h0, -⟩
          simp only [List.drop_zero] at h0
          rw [hp] at h0
          exact Bool.noConfusion h0
      | succ i =>
        rw [option_map_succ_eq_some, ih i]
        constructor
        · rintro ⟨hi, hmin⟩
          refine ⟨by simpa using hi, ?_⟩
          intro k hk
          cases k with
          | zero => simpa using hp
          | succ k => simpa using hmin k (by omega)
        · rintro ⟨hi, hmin⟩
          refine ⟨by simpa using hi, ?_⟩
          intro j hj
          have := hmin (j + 1) (by omega)
          simpa using this
    · rw [listFind_cons_pos hp]
      constructor
      · intro h
        rw [← Option.some.inj h]
        exact ⟨by simpa using hp, fun j hj => absurd hj (Nat.not_lt_zero j)⟩
      · rintro ⟨-, hmin⟩
        congr 1
        by_contra hne
        have hpos : 0 < i := Nat.pos_of_ne_zero (fun h => hne h.symm)
        have := hmin 0 hpos
        simp only [List.drop_zero] at this
        rw [hp] at this
        exact Bool.noConfusion this

theorem containsSub_iff (pat s : Str) :
    containsSub pat s = true ↔ ∃ j, pat.isPrefixOf (s.drop j) = true := by
  unfold containsSub
  rw [Option.isSome_iff_exists]
  constructor
  · rintro ⟨i, hi⟩
    exact ⟨i, ((listFind_eq_some_iff pat s i).1 hi).1⟩
  · rintro ⟨j, hj⟩
    rcases h : listFind pat s with _ | i
    · rw [listFind_eq_none_iff] at h
      rw [h j] at hj
      exact Bool.noConfusion hj
    · exact ⟨i, rfl⟩

theorem containsSub_eq_false_iff (pat s : Str) :
    containsSub pat s = false ↔ ∀ j, pat.isPrefixOf (s.drop j) = false := by
  rw [← listFind_eq_none_iff]
  unfold containsSub
  rcases h : listFind pat s with _ | i <;> simp [h]

theorem containsSub_parts (pat s : Str) :
    containsSub pat s = true ↔ ∃ u v, s = u ++ pat ++ v := by
  rw [containsSub_iff]
  constructor
  · rintro ⟨j, hj⟩
    rw [ipo_iff_take] at hj
    refine ⟨s.take j, (s.drop j).drop pat.length, ?_⟩
    rw [List.append_assoc]
    conv_lhs => rw [← List.take_append_drop j s]
    congr 1
    conv_lhs => rw [← List.take_append_drop pat.length (s.drop j)]
    rw [hj]
  · rintro ⟨u, v, rfl⟩
    refine ⟨u.length, ?_⟩
    rw [List.append_assoc, List.drop_left]
    exact ipo_self_append pat v

/-! ### Declarative characterisation of the regex search (spec side) -/

/-- The mermaid opening tag matches at position j of t. -/
def OpenAt (t : Str) (j : Nat) : Prop := mOpen.isPrefixOf (t.drop j) = true

/-- A fence delimiter matches at position j of t. -/
def FenceAt (t : Str) (j : Nat) : Prop := mFence.isPrefixOf (t.drop j) = true

/-- A complete fenced mermaid block can match starting at position j of
t: the opening tag matches there and some closing fence occurs at or
after the end of the tag. -/
def BlockAt (t : Str) (j : Nat) : Prop :=
  OpenAt t j ∧ ∃ k, FenceAt t (j + mOpen.length + k)

/-- Following the wording of spec 4.1: the first fenced block of t opens
at position i (no earlier position can start a complete block) and its
interior spans j characters, ending at the first fence that follows the
opening tag (the non-greedy match). -/
def SpecFirstBlock (t : Str) (i j : Nat) : Prop :=
  OpenAt t i ∧ (∀ i' < i, ¬ BlockAt t i') ∧
    FenceAt t (i + mOpen.length + j) ∧ ∀ j' < j, ¬ FenceAt t (i + mOpen.length + j')

/-- Following the wording of spec 4.1: extraction returns exactly the
trimmed interior of the first fenced block. -/
def SpecExtract (t m : Str) : Prop :=
  ∃ i j, SpecFirstBlock t i j ∧ m = pyStrip ((t.drop (i + mOpen.length)).take j)

theorem searchMermaid_cons_neg {c : Char} {t : Str}
    (hp : mOpen.isPrefixOf (c :: t) = false) :
    searchMermaid (c :: t) = searchMermaid t := by
  simp [searchMermaid, hp]

theorem searchMermaid_cons_pos_none {c : Char} {t : Str}
    (hp : mOpen.isPrefixOf (c :: t) = true)
    (hf : listFind mFence ((c :: t).drop mOpen.length) = none) :
    searchMermaid (c :: t) = searchMermaid t := by
  simp [searchMermaid, hp, hf]

theorem searchMermaid_cons_pos_some {c : Char} {t : Str} {j : Nat}
    (hp : mOpen.isPrefixOf (c :: t) = true)
    (hf : listFind mFence ((c :: t).drop mOpen.length) = some j) :
    searchMermaid (c :: t) = some (((c :: t).drop mOpen.length).take j) := by
  simp [searchMermaid, hp, hf]

theorem OpenAt_cons (c : Char) (t : Str) (i : Nat) :
    OpenAt (c :: t) (i + 1) ↔ OpenAt t i := by
  simp [OpenAt, List.drop_succ_cons]

theorem FenceAt_cons (c : Char) (t : Str) (i : Nat) :
    FenceAt (c :: t) (i + 1) ↔ FenceAt t i := by
  simp [FenceAt, List.drop_succ_cons]

theorem BlockAt_cons (c : Char) (t : Str) (i : Nat) :
    BlockAt (c :: t) (i + 1) ↔ BlockAt t i := by
  unfold BlockAt
  rw [OpenAt_cons]
  constructor
  · rintro ⟨ho, k, hk⟩
    refine ⟨ho, k, ?_⟩
    have he : i + 1 + mOpen.length + k = (i + mOpen.length + k) + 1 := by omega
    rw [he] at hk
    exact (FenceAt_cons c t _).1 hk
  · rintro ⟨ho, k, hk⟩
    refine ⟨ho, k, ?_⟩
    have he : i + 1 + mOpen.length + k = (i + mOpen.length + k) + 1 := by omega
    rw [he]
    exact (FenceAt_cons c t _).2 hk

theorem fenceAt_iff_drop (t : Str) (k : Nat) :
    FenceAt t (mOpen.length + k) ↔
      mFence.isPrefixOf ((t.drop mOpen.length).drop k) = true := by
  unfold FenceAt
  rw [List.drop_drop]

theorem blockAt_zero_iff (t : Str) :
    BlockAt t 0 ↔ OpenAt t 0 ∧ listFind mFence (t.drop mOpen.length) ≠ none := by
  unfold BlockAt
  constructor
  · rintro ⟨ho, k, hk⟩
    refine ⟨ho, ?_⟩
    intro hn
    rw [listFind_eq_none_iff] at hn
    have hz : (0 : Nat) + mOpen.length + k = mOpen.length + k := by omega
    rw [hz] at hk
    have := (fenceAt_iff_drop t k).1 hk
    rw [hn k] at this
    exact Bool.noConfusion this
  · rintro ⟨ho, hn⟩
    rcases hx : listFind mFence (t.drop mOpen.length) with _ | j
    · exact absurd hx hn
    · have hpre := ((listFind_eq_some_iff _ _ _).1 hx).1
      refine ⟨ho, j, ?_⟩
      have hz : (0 : Nat) + mOpen.length + j = mOpen.length + j := by omega
      rw [hz]
      exact (fenceAt_iff_drop t j).2 hpre

theorem specFirstBlock_shift (c : Char) (t : Str) (hnb : ¬ BlockAt (c :: t) 0) (mid : Str) :
    (∃ i j, SpecFirstBlock t i j ∧ mid = (t.drop (i + mOpen.length)).take j) ↔
      ∃ i j, SpecFirstBlock (c :: t) i j ∧ mid = ((c :: t).drop (i + mOpen.length)).take j := by
  constructor
  · rintro ⟨i, j, ⟨ho, hmin, hf, hfmin⟩, hm⟩
    refine ⟨i + 1, j, ⟨(OpenAt_cons c t i).2 ho, ?_, ?_, ?_⟩, ?_⟩
    · intro i' hi'
      cases i' with
      | zero => exact hnb
      | succ i' =>
        rw [BlockAt_cons]
        exact hmin i' (by omega)
    · have he : i + 1 + mOpen.length + j = (i + mOpen.length + j) + 1 := by omega
      rw [he, FenceAt_cons]
      exact hf
    · intro j' hj'
      have he : i + 1 + mOpen.length + j' = (i + mOpen.length + j') + 1 := by omega
      rw [he, FenceAt_cons]
      exact hfmin j' hj'
    · have he : i + 1 + mOpen.length = (i + mOpen.length) + 1 := by omega
      rw [he, List.drop_succ_cons]
      exact hm
  · rintro ⟨i, j, ⟨ho, hmin, hf, hfmin⟩, hm⟩
    cases i with
    | zero => exact absurd ⟨ho, j, hf⟩ hnb
    | succ i =>
      refine ⟨i, j, ⟨(OpenAt_cons c t i).1 ho, ?_, ?_, ?_⟩, ?_⟩
      · intro i' hi'
        have := hmin (i' + 1) (by omega)
        rw [BlockAt_cons] at this
        exact this
      · have he : i + 1 + mOpen.length + j = (i + mOpen.length + j) + 1 := by omega
        rw [he, FenceAt_cons] at hf
        exact hf
      · intro j' hj'
        have h2 := hfmin j' hj'
        have he : i + 1 + mOpen.length + j' = (i + mOpen.length + j') + 1 := by omega
        rw [he, FenceAt_cons] at h2
        exact h2
      · have he : i + 1 + mOpen.length = (i + mOpen.length) + 1 := by omega
        rw [he, List.drop_succ_cons] at hm
        exact hm

theorem blockAt_forall_shift (c : Char) (t : Str) (hnb : ¬ BlockAt (c :: t) 0) :
    (∀ i, ¬ BlockAt (c :: t) i) ↔ ∀ i, ¬ BlockAt t i := by
  constructor
  · intro h i
    have := h (i + 1)
    rw [BlockAt_cons] at this
    exact this
  · intro h i
    cases i with
    | zero => exact hnb
    | succ i =>
      rw [BlockAt_cons]
      exact h i

theorem mOpen_nil_false : mOpen.isPrefixOf ([] : Str) = false := by decide

theorem searchMermaid_eq_some_iff : ∀ t mid : Str,
    searchMermaid t = some mid ↔
      ∃ i j, SpecFirstBlock t i j ∧ mid = (t.drop (i + mOpen.length)).take j := by
  intro t
  induction t with
  | nil =>
    intro mid
    constructor
    · intro h; exact Option.noConfusion h
    · rintro ⟨i, j, ⟨ho, -, -, -⟩, -⟩
      unfold OpenAt at ho
      rw [List.drop_nil, mOpen_nil_false] at ho
      exact Bool.noConfusion ho
  | cons c t ih =>
    intro mid
    rcases hp : mOpen.isPrefixOf (c :: t) with _ | _
    · have hnb : ¬ BlockAt (c :: t) 0 := by
        rintro ⟨ho, -⟩
        unfold OpenAt at ho
        rw [List.drop_zero, hp] at ho
        exact Bool.noConfusion ho
      rw [searchMermaid_cons_neg hp, ih mid]
      exact specFirstBlock_shift c t hnb mid
    · rcases hf : listFind mFence ((c :: t).drop mOpen.length) with _ | j
      · have hnb : ¬ BlockAt (c :: t) 0 :=
          fun hb => ((blockAt_zero_iff _).1 hb).2 hf
        rw [searchMermaid_cons_pos_none hp hf, ih mid]
        exact specFirstBlock_shift c t hnb mid
      · rw [searchMermaid_cons_pos_some hp hf]
        have hfs := (listFind_eq_some_iff _ _ _).1 hf
        have hOpen0 : OpenAt (c :: t) 0 := by
          unfold OpenAt
          rw [List.drop_zero]
          exact hp
        have hFj : FenceAt (c :: t) (0 + mOpen.length + j) := by
          have hz : (0 : Nat) + mOpen.length + j = mOpen.length + j := by omega
          rw [hz]
          exact (fenceAt_iff_drop _ j).2 hfs.1
        have hFmin : ∀ j' < j, ¬ FenceAt (c :: t) (0 + mOpen.length + j') := by
          intro j' hj' hcon
          have hz : (0 : Nat) + mOpen.length + j' = mOpen.length + j' := by omega
          rw [hz] at hcon
          have := (fenceAt_iff_drop _ j').1 hcon
          rw [hfs.2 j' hj'] at this
          exact Bool.noConfusion this
        constructor
        · intro h
          refine ⟨0, j, ⟨hOpen0, fun i' hi' => absurd hi' (Nat.not_lt_zero i'), hFj, hFmin⟩, ?_⟩
          have hz : (0 : Nat) + mOpen.length = mOpen.length := by omega
          rw [hz]
          exact (Option.some.inj h).symm
        · rintro ⟨i, j2, ⟨ho, hmin, hf2, hfmin2⟩, hm⟩
          have hi0 : i = 0 := by
            by_contra hne
            have hipos : 0 < i := Nat.pos_of_ne_zero hne
            exact hmin 0 hipos ⟨hOpen0, j, hFj⟩
          subst hi0
          have hj2 : j2 = j := by
            by_contra hne
            rcases Nat.lt_or_ge j2 j with hlt | hge
            · exact hFmin j2 hlt hf2
            · have hlt2 : j < j2 := by omega
              exact hfmin2 j hlt2 hFj
          subst hj2
          have hz : (0 : Nat) + mOpen.length = mOpen.length := by omega
          rw [hz] at hm
          rw [hm]

theorem searchMermaid_eq_none_iff : ∀ t : Str,
    searchMermaid t = none ↔ ∀ i, ¬ BlockAt t i := by
  intro t
  induction t with
  | nil =>
    constructor
    · rintro - i ⟨ho, -⟩
      unfold OpenAt at ho
      rw [List.drop_nil, mOpen_nil_false] at ho
      exact Bool.noConfusion ho
    · intro h; rfl
  | cons c t ih =>
    rcases hp : mOpen.isPrefixOf (c :: t) with _ | _
    · have hnb : ¬ BlockAt (c :: t) 0 := by
        rintro ⟨ho, -⟩
        unfold OpenAt at ho
        rw [List.drop_zero, hp] at ho
        exact Bool.noConfusion ho
      rw [searchMermaid_cons_neg hp, ih]
      exact (blockAt_forall_shift c t hnb).symm
    · rcases hf : listFind mFence ((c :: t).drop mOpen.length) with _ | j
      · have hnb : ¬ BlockAt (c :: t) 0 :=
          fun hb => ((blockAt_zero_iff _).1 hb).2 hf
        rw [searchMermaid_cons_pos_none hp hf, ih]
        exact (blockAt_forall_shift c t hnb).symm
      · rw [searchMermaid_cons_pos_some hp hf]
        constructor
        · intro h; exact Option.noConfusion h
        · intro h
          exfalso
          refine h 0 ((blockAt_zero_iff _).2 ⟨?_, ?_⟩)
          · unfold OpenAt
            rw [List.drop_zero]
            exact hp
          · rw [hf]
            exact fun hx => Option.noConfusion hx

/-! ### Lemmas about pyStrip -/

theorem dropWhile_append_single {s : Str} (c : Char)
    (h : s.dropWhile isPySpace ≠ []) :
    (s ++ [c]).dropWhile isPySpace = s.dropWhile isPySpace ++ [c] := by
  induction s with
  | nil => exact absurd rfl h
  | cons a s ih =>
    rw [List.cons_append, List.dropWhile_cons, List.dropWhile_cons]
    rcases hpa : isPySpace a with _ | _
    · simp
    · simp only [if_pos rfl]
      apply ih
      intro hnil
      apply h
      rw [List.dropWhile_cons, hpa, if_pos rfl, hnil]

theorem pyStrip_cons_space {c : Char} (hc : isPySpace c = true) (s : Str) :
    pyStrip (c :: s) = pyStrip s := by
  unfold pyStrip
  rw [List.dropWhile_cons, hc, if_pos rfl]

theorem rstrip_append_space {c : Char} (hc : isPySpace c = true) (s : Str) :
    rstrip (s ++ [c]) = rstrip s := by
  unfold rstrip
  simp only [List.reverse_append, List.reverse_singleton, List.singleton_append]
  rw [List.dropWhile_cons, hc, if_pos rfl]

theorem pyStrip_append_space {c : Char} (hc : isPySpace c = true) (s : Str) :
    pyStrip (s ++ [c]) = pyStrip s := by
  unfold pyStrip
  rcases hdw : s.dropWhile isPySpace with _ | ⟨a, u⟩
  · have hall : ∀ x ∈ s, isPySpace x = true := List.dropWhile_eq_nil_iff.1 hdw
    have hnil : (s ++ [c]).dropWhile isPySpace = [] := by
      rw [List.dropWhile_eq_nil_iff]
      intro x hx
      rcases List.mem_append.1 hx with hx | hx
      · exact hall x hx
      · rw [List.mem_singleton.1 hx]; exact hc
    rw [hnil]
  · rw [dropWhile_append_single c (by rw [hdw]; exact List.cons_ne_nil a u),
      rstrip_append_space hc, hdw]

theorem dropWhile_eq_drop (s : Str) : ∃ n, s.dropWhile isPySpace = s.drop n := by
  induction s with
  | nil => exact ⟨0, rfl⟩
  | cons a s ih =>
    rcases hpa : isPySpace a with _ | _
    · exact ⟨0, by rw [List.dropWhile_cons, hpa]; simp⟩
    · rcases ih with ⟨n, hn⟩
      exact ⟨n + 1, by rw [List.dropWhile_cons, hpa, if_pos rfl, hn, List.drop_succ_cons]⟩

theorem rstrip_eq_take (s : Str) : ∃ n, rstrip s = s.take n := by
  rcases dropWhile_eq_drop s.reverse with ⟨k, hk⟩
  refine ⟨s.length - k, ?_⟩
  unfold rstrip
  rw [hk, List.reverse_drop, List.reverse_reverse, List.length_reverse]

theorem listFind_none_drop {pat s : Str} (h : listFind pat s = none) (n : Nat) :
    listFind pat (s.drop n) = none := by
  rw [listFind_eq_none_iff] at h ⊢
  intro j
  rw [List.drop_drop]
  exact h (n + j)

theorem listFind_none_take {pat s : Str} (h : listFind pat s = none) (n : Nat) :
    listFind pat (s.take n) = none := by
  rw [listFind_eq_none_iff] at h ⊢
  intro j
  rcases hx : pat.isPrefixOf ((s.take n).drop j) with _ | _
  · rfl
  · exfalso
    rw [List.drop_take] at hx
    have := ipo_of_take hx
    rw [h j] at this
    exact Bool.noConfusion this

theorem rstrip_idem (s : Str) : rstrip (rstrip s) = rstrip s := by
  unfold rstrip
  rw [List.reverse_reverse, List.dropWhile_idempotent]

theorem dropWhile_head_not : ∀ (s : Str) {a : Char} {u : Str},
    s.dropWhile isPySpace = a :: u → isPySpace a = false := by
  intro s
  induction s with
  | nil => intro a u h; exact absurd h (by simp)
  | cons b s ih =>
    intro a u h
    rw [List.dropWhile_cons] at h
    rcases hpb : isPySpace b with _ | _
    · rw [hpb] at h
      simp only [Bool.false_eq_true, if_false, List.cons.injEq] at h
      rw [← h.1]
      exact hpb
    · rw [hpb, if_pos rfl] at h
      exact ih h

theorem pyStrip_idem (s : Str) : pyStrip (pyStrip s) = pyStrip s := by
  unfold pyStrip
  rcases hu : s.dropWhile isPySpace with _ | ⟨b, w⟩
  · simp [rstrip]
  · have hb : isPySpace b = false := dropWhile_head_not s hu
    have hdu : (rstrip (b :: w)).dropWhile isPySpace = rstrip (b :: w) := by
      rcases rstrip_eq_take (b :: w) with ⟨n, hn⟩
      cases n with
      | zero => rw [hn, List.take_zero]; rfl
      | succ n =>
        rw [hn, List.take_succ_cons, List.dropWhile_cons, hb]
        simp
    rw [hdu, rstrip_idem]

theorem pyStrip_sub_find_none {pat s : Str} (h : listFind pat s = none) :
    listFind pat (pyStrip s) = none := by
  unfold pyStrip
  rcases dropWhile_eq_drop s with ⟨n, hn⟩
  rcases rstrip_eq_take (s.dropWhile isPySpace) with ⟨k, hk⟩
  rw [hk, hn]
  exact listFind_none_take (listFind_none_drop h n) k

theorem mFence_len_pos : 0 < mFence.length := by decide

/-- The interior selected by the search contains no fence delimiter. -/
theorem searchMermaid_interior_fence_free {t mid : Str}
    (h : searchMermaid t = some mid) : listFind mFence mid = none := by
  rcases (searchMermaid_eq_some_iff t mid).1 h with ⟨i, j, ⟨-, -, -, hfmin⟩, rfl⟩
  rw [listFind_eq_none_iff]
  intro k
  rcases hx : mFence.isPrefixOf ((((t.drop (i + mOpen.length)).take j).drop k)) with _ | _
  · rfl
  · exfalso
    rw [List.drop_take] at hx
    have hlen := ipo_length hx
    rw [List.length_take] at hlen
    have hkj : k < j := by
      have := mFence_len_pos
      omega
    have hpre := ipo_of_take hx
    rw [List.drop_drop] at hpre
    exact hfmin k hkj hpre

/-! ### Helper facts about the endpoint model -/

/-- A structurally valid request body: a JSON object that contains the
project_description key (such an object is non-empty, hence truthy). -/
def validBody (body : ReqBody) : Prop :=
  ∃ entries pd, body = some entries ∧ entries.lookup pdKey = some pd

theorem lookup_ne_nil {entries : List (Str × Str)} {pd : Str}
    (h : entries.lookup pdKey = some pd) : entries.isEmpty = false := by
  cases entries with
  | nil => exact absurd h (by simp [List.lookup])
  | cons a l => rfl

/-! ### Claim theorems -/

/-- Claim C1: for every input string, extract_mermaid_code returns some m
exactly when m is the trimmed interior of the first fenced block (opened
by the mermaid tag, closed at the first following fence, leftmost match,
spanning newlines; later blocks ignored), and returns none exactly when
no position starts a complete fenced block; as a total function it
reports absence rather than raising. -/
theorem c1_extract_first_block (t : Str) :
    (∀ m, extract_mermaid_code t = some m ↔ SpecExtract t m) ∧
      (extract_mermaid_code t = none ↔ ∀ i, ¬ BlockAt t i) := by
  constructor
  · intro m
    unfold extract_mermaid_code SpecExtract
    constructor
    · intro h
      rcases hs : searchMermaid t with _ | mid
      · rw [hs] at h; exact Option.noConfusion h
      · rw [hs] at h
        simp only [Option.map_some'] at h
        have hm : m = pyStrip mid := (Option.some.inj h).symm
        rcases (searchMermaid_eq_some_iff t mid).1 hs with ⟨i, j, hc, hmid⟩
        exact ⟨i, j, hc, by rw [hm, hmid]⟩
    · rintro ⟨i, j, hc, hm⟩
      have hs : searchMermaid t = some ((t.drop (i + mOpen.length)).take j) :=
        (searchMermaid_eq_some_iff t _).2 ⟨i, j, hc, rfl⟩
      rw [hs, hm]
      rfl
  · unfold extract_mermaid_code
    rw [← searchMermaid_eq_none_iff]
    rcases hs : searchMermaid t with _ | mid <;> simp [hs]

theorem c1_extract_first_block_witness :
    SpecExtract ("pre ```mermaid\ngraph TD\n``` post".data) ("graph TD".data) :=
  ((c1_extract_first_block ("pre ```mermaid\ngraph TD\n``` post".data)).1
    ("graph TD".data)).1 (by decide)

/-- Claim C10: every value extracted by extract_mermaid_code contains no
occurrence of the fence delimiter and is unchanged by trimming. -/
theorem c10_extract_invariant {t m : Str}
    (h : extract_mermaid_code t = some m) :
    containsSub mFence m = false ∧ pyStrip m = m := by
  unfold extract_mermaid_code at h
  rcases hs : searchMermaid t with _ | mid
  · rw [hs] at h; exact absurd h (by simp)
  · rw [hs] at h
    simp only [Option.map_some'] at h
    have hm : m = pyStrip mid := (Option.some.inj h).symm
    subst hm
    constructor
    · unfold containsSub
      rw [pyStrip_sub_find_none (searchMermaid_interior_fence_free hs)]
      rfl
    · exact pyStrip_idem mid

theorem c10_extract_invariant_witness :
    containsSub mFence ("graph TD".data) = false ∧
      pyStrip ("graph TD".data) = "graph TD".data :=
  c10_extract_invariant (t := "x```mermaid graph TD ```".data) (by decide)

/-- Claim C8: GET /get_png returns the image bytes with an image content
type when the file exists, and a 404 with the fixed plain-text body when
it does not. -/
theorem c8_get_png (png : Option (List Nat)) :
    (∀ b, png = some b → get_png png = .fileResp b ("image/png".data) 200) ∧
      (png = none → get_png png = .plain ("PNG image not found.".data) 404) := by
  constructor
  · rintro b rfl; rfl
  · rintro rfl; rfl

theorem c8_get_png_witness :
    get_png (some [7, 7]) = .fileResp [7, 7] ("image/png".data) 200 ∧
      get_png none = .plain ("PNG image not found.".data) 404 :=
  ⟨(c8_get_png (some [7, 7])).1 [7, 7] rfl, (c8_get_png none).2 rfl⟩

/-- Claim C6: the renderer reads the document from disk and re-runs the
extractor over that content (its model takes no in-memory markup, only
the RenderEnv); a missing document or a failed extraction yields the
failure value, every modelled exception is converted into the return
value false rather than propagating, and it succeeds exactly when the
file exists, extraction of its content is truthy, and every effectful
step succeeds. -/
theorem c6_convert_failure_handling (env : RenderEnv) :
    (env.readmeContent = none → convert_readme_to_png env = false) ∧
    (∀ c, env.readmeContent = some c → extract_mermaid_code c = none →
      convert_readme_to_png env = false) ∧
    (convert_readme_to_png env = true ↔
      ∃ c code, env.readmeContent = some c ∧ extract_mermaid_code c = some code ∧
        code ≠ [] ∧ env.writeTempOk = true ∧ env.imgkitOk = true ∧
        env.removeOk = true) := by
  obtain ⟨rc, wt, ik, rm⟩ := env
  refine ⟨?_, ?_, ?_⟩
  · rintro rfl; rfl
  · rintro c rfl hx
    simp [convert_readme_to_png, hx]
  · cases rc with
    | none => simp [convert_readme_to_png]
    | some c =>
      rcases hx : extract_mermaid_code c with _ | code
      · have hconv : convert_readme_to_png ⟨some c, wt, ik, rm⟩ = false := by
          simp [convert_readme_to_png, hx]
        rw [hconv]
        constructor
        · intro h; exact Bool.noConfusion h
        · rintro ⟨c', code', hc', hcode', -⟩
          rw [← Option.some.inj hc'] at hcode'
          rw [hx] at hcode'
          exact Option.noConfusion hcode'
      · have hconv : convert_readme_to_png ⟨some c, wt, ik, rm⟩
            = if code.isEmpty then false else wt && ik && rm := by
          simp [convert_readme_to_png, hx]
        rw [hconv]
        rcases hce : code.isEmpty with _ | _
        · rw [if_neg (by simp [hce])]
          constructor
          · intro hb
            simp only [Bool.and_eq_true] at hb
            obtain ⟨⟨hw, hi⟩, hr⟩ := hb
            refine ⟨c, code, rfl, hx, ?_, hw, hi, hr⟩
            intro hnil
            rw [hnil] at hce
            exact Bool.noConfusion hce
          · rintro ⟨c', code', hc', hcode', -, hw, hi, hr⟩
            have hw' : wt = true := by simpa using hw
            have hi' : ik = true := by simpa using hi
            have hr' : rm = true := by simpa using hr
            rw [hw', hi', hr']
            rfl
        · rw [if_pos rfl]
          constructor
          · intro h; exact Bool.noConfusion h
          · rintro ⟨c', code', hc', hcode', hne, -⟩
            have hcc : c = c' := Option.some.inj hc'
            rw [← hcc, hx] at hcode'
            have hco : code = code' := Option.some.inj hcode'
            subst hco
            cases code with
            | nil => exact absurd rfl hne
            | cons a l => exact Bool.noConfusion hce

theorem c6_convert_failure_handling_witness :
    convert_readme_to_png ⟨none, true, true, true⟩ = false :=
  (c6_convert_failure_handling ⟨none, true, true, true⟩).1 rfl

/-- Claim C5: for a structurally valid request whose model call reports
absence, the handler answers 200 (never 500) with the fixed failure
placeholder in the diagram-content slot, and the extraction, writing and
rendering stages are all skipped. -/
theorem c5_model_failure_degrades (body : ReqBody) (env : WorldEnv)
    (hv : validBody body) (hg : env.genResult = none) :
    mermaid_endpoint body env = ⟨.page failedMsg false 200, true, false, false, false⟩ := by
  rcases hv with ⟨entries, pd, rfl, hl⟩
  simp [mermaid_endpoint, lookup_ne_nil hl, hl, hg]

theorem c5_model_failure_degrades_witness :
    mermaid_endpoint (some [(pdKey, "a".data)]) ⟨none, true, none, true, true, true⟩
      = ⟨.page failedMsg false 200, true, false, false, false⟩ :=
  c5_model_failure_degrades _ _ ⟨[(pdKey, "a".data)], "a".data, rfl, by decide⟩ rfl

/-- Claim C9: a reply whose first fenced interior trims to the empty
string is treated exactly like an extraction miss (200 with the fixed
not-found placeholder, no write, no render), and the diagram-text slot of
every page response is a non-empty string. -/
theorem c9_empty_interior_like_miss :
    (∀ body env reply, validBody body → env.genResult = some reply → reply ≠ [] →
      extract_mermaid_code reply = some [] →
      mermaid_endpoint body env = ⟨.page notFoundMsg false 200, true, true, false, false⟩) ∧
    (∀ body env c p s, (mermaid_endpoint body env).resp = .page c p s → c ≠ []) := by
  constructor
  · intro body env reply hv hg hre hx
    rcases hv with ⟨entries, pd, rfl, hl⟩
    have hre' : reply.isEmpty = false := by
      cases reply with
      | nil => exact absurd rfl hre
      | cons a l => rfl
    simp [mermaid_endpoint, lookup_ne_nil hl, hl, hg, hre', hx]
  · intro body env c p s h
    rcases body with _ | entries
    · simp [mermaid_endpoint] at h
    · rcases he : entries.isEmpty with _ | _
      · rcases hl : entries.lookup pdKey with _ | pd
        · simp [mermaid_endpoint, he, hl] at h
        · rcases hg : env.genResult with _ | reply
          · simp [mermaid_endpoint, he, hl, hg] at h
            obtain ⟨h1, -, -⟩ := h
            intro hnil
            rw [hnil] at h1
            exact absurd h1 (by decide)
          · rcases hre : reply.isEmpty with _ | _
            · rcases hx : extract_mermaid_code reply with _ | code
              · simp [mermaid_endpoint, he, hl, hg, hre, hx] at h
                obtain ⟨h1, -, -⟩ := h
                intro hnil
                rw [hnil] at h1
                exact absurd h1 (by decide)
              · rcases hce : code.isEmpty with _ | _
                · simp [mermaid_endpoint, he, hl, hg, hre, hx, hce] at h
                  obtain ⟨h1, -, -⟩ := h
                  intro hnil
                  rw [hnil] at h1
                  have hcode : code = [] := h1
                  rw [hcode] at hce
                  exact Bool.noConfusion hce
                · simp [mermaid_endpoint, he, hl, hg, hre, hx, hce] at h
                  obtain ⟨h1, -, -⟩ := h
                  intro hnil
                  rw [hnil] at h1
                  exact absurd h1 (by decide)
            · simp [mermaid_endpoint, he, hl, hg, hre] at h
              obtain ⟨h1, -, -⟩ := h
              intro hnil
              rw [hnil] at h1
              exact absurd h1 (by decide)
      · simp [mermaid_endpoint, he] at h

theorem c9_empty_interior_like_miss_witness :
    mermaid_endpoint (some [(pdKey, "d".data)])
        ⟨some ("```mermaid \n```".data), true, none, true, true, true⟩
      = ⟨.page notFoundMsg false 200, true, true, false, false⟩ :=
  c9_empty_interior_like_miss.1 _ _ _ ⟨[(pdKey, "d".data)], "d".data, rfl, by decide⟩
    rfl (by decide) (by decide)

/-- Claim C4 as stated is refuted at a body whose project_description
value is the empty string: the source only checks key presence, so such a
request passes validation, generation is invoked, and the status is 200,
not 400. -/
theorem c4_counterexample :
    (mermaid_endpoint (some [(pdKey, [])])
        ⟨none, true, none, true, true, true⟩).genInvoked = true ∧
    (mermaid_endpoint (some [(pdKey, [])])
        ⟨none, true, none, true, true, true⟩).resp.statusOf = 200 ∧
    ¬ (mermaid_endpoint (some [(pdKey, [])])
        ⟨none, true, none, true, true, true⟩).resp.statusOf = 400 := by
  decide

/-- Claim C4 amended: for every request whose parsed body is absent, an
empty (falsy) object, or an object lacking the project_description key,
the handler responds immediately with 400 and the structured error body,
and no generation, extraction, writing or rendering is performed.  (The
value of the field, including the empty string, is not validated.) -/
theorem c4_validation_amended (body : ReqBody) (env : WorldEnv)
    (h : body = none ∨ ∃ entries, body = some entries ∧
      (entries = [] ∨ entries.lookup pdKey = none)) :
    mermaid_endpoint body env = ⟨.err errRequired 400, false, false, false, false⟩ := by
  rcases h with rfl | ⟨entries, rfl, h⟩
  · rfl
  · rcases h with rfl | hl
    · rfl
    · rcases he : entries.isEmpty with _ | _
      · simp [mermaid_endpoint, he, hl]
      · simp [mermaid_endpoint, he]

theorem c4_validation_amended_witness :
    mermaid_endpoint none ⟨none, true, none, true, true, true⟩
      = ⟨.err errRequired 400, false, false, false, false⟩ :=
  c4_validation_amended none ⟨none, true, none, true, true, true⟩ (Or.inl rfl)

/-! ### Line structure of the written readme.md (claim C3) -/

theorem splitNL_ne_nil : ∀ s : Str, splitNL s ≠ [] := by
  intro s
  cases s with
  | nil => exact fun h => List.noConfusion h
  | cons c t =>
    unfold splitNL
    split
    · exact fun h => List.noConfusion h
    · split
      · exact fun h => List.noConfusion h
      · exact fun h => List.noConfusion h

theorem splitNL_cons_nl (b : Str) : splitNL ('\n' :: b) = [] :: splitNL b := by
  simp [splitNL]

theorem splitNL_cons_other {c : Char} (hc : ¬ c = '\n') (b : Str) :
    splitNL (c :: b)
      = match splitNL b with
        | [] => [[c]]
        | l :: ls => (c :: l) :: ls := by
  simp [splitNL, hc]

theorem splitNL_append (a b : Str) :
    splitNL (a ++ '\n' :: b) = splitNL a ++ splitNL b := by
  induction a with
  | nil =>
    rw [List.nil_append, splitNL_cons_nl]
    rfl
  | cons c a ih =>
    by_cases hc : c = '\n'
    · subst hc
      rw [List.cons_append, splitNL_cons_nl, splitNL_cons_nl, ih, List.cons_append]
    · rw [List.cons_append, splitNL_cons_other hc, splitNL_cons_other hc, ih]
      rcases h : splitNL a with _ | ⟨l, ls⟩
      · exact absurd h (splitNL_ne_nil a)
      · simp only [List.cons_append]

/-- Claim C3 as stated is refuted: in the written file exactly one header
line (the heading) precedes the opening fence line, which is the second
line of the file, so no two-line header exists. -/
theorem c3_counterexample :
    splitNL (save_to_readme_content ("graph TD".data))
        = ["## Mermaid Diagram".data, "```mermaid".data, "graph TD".data,
            "```".data, []] ∧
      ¬ ∃ l1 l2 rest, splitNL (save_to_readme_content ("graph TD".data))
        = l1 :: l2 :: "```mermaid".data :: rest := by
  refine ⟨by decide, ?_⟩
  rintro ⟨l1, l2, rest, h⟩
  rw [show splitNL (save_to_readme_content ("graph TD".data))
      = ["## Mermaid Diagram".data, "```mermaid".data, "graph TD".data,
          "```".data, []] from by decide] at h
  simp only [List.cons.injEq] at h
  exact absurd h.2.2.1 (by decide)

/-- Claim C3 amended: save_to_readme truncates and rewrites the document
with exactly a one-line header (the heading line, nothing else), then the
opening fence line, then M verbatim, then the closing fence line and a
final newline. -/
theorem c3_readme_layout_amended (M : Str) :
    splitNL (save_to_readme_content M)
      = "## Mermaid Diagram".data :: "```mermaid".data
          :: (splitNL M ++ ["```".data, []]) := by
  have h1 : save_to_readme_content M
      = "## Mermaid Diagram".data ++ '\n' ::
          ("```mermaid".data ++ '\n' ::
            (M ++ '\n' :: ("```".data ++ '\n' :: ([] : Str)))) := by
    unfold save_to_readme_content
    have ha : ("## Mermaid Diagram\n```mermaid\n".data : Str)
        = "## Mermaid Diagram".data ++ '\n' :: ("```mermaid".data ++ ['\n']) := by decide
    have hb : ("\n```\n".data : Str) = '\n' :: ("```".data ++ ['\n']) := by decide
    rw [ha, hb]
    simp [List.append_assoc]
  rw [h1, splitNL_append, splitNL_append, splitNL_append, splitNL_append]
  rw [show splitNL ("## Mermaid Diagram".data) = ["## Mermaid Diagram".data] from by decide]
  rw [show splitNL ("```mermaid".data) = ["```mermaid".data] from by decide]
  rw [show splitNL ("```".data) = ["```".data] from by decide]
  simp [splitNL]

/-! ### The writer/extractor round trip (claim C2) -/

theorem ipo_ne_head {a : Char} (p : Str) {c : Char} (h : ¬ c = a) (d : Str) :
    (a :: p).isPrefixOf (c :: d) = false := by
  rw [ipo_cons]
  have hne : (a == c) = false := by
    rw [beq_eq_false_iff_ne]
    intro he
    exact h he.symm
  rw [hne, Bool.false_and]

theorem mOpen_eq : mOpen = bq :: "``mermaid".data := by decide

theorem mFence_eq : mFence = bq :: bq :: [bq] := by decide

theorem mFence_ipo_two (x : Char) (d : Str) :
    mFence.isPrefixOf (x :: '\n' :: d) = false := by
  rw [mFence_eq, ipo_cons, ipo_cons]
  rw [show (bq == '\n') = false from by decide, Bool.false_and, Bool.and_false]

theorem mFence_ipo_three (x y : Char) (d : Str) :
    mFence.isPrefixOf (x :: y :: '\n' :: d) = false := by
  rw [mFence_eq, ipo_cons, ipo_cons, ipo_cons]
  rw [show (bq == '\n') = false from by decide, Bool.false_and, Bool.and_false,
    Bool.and_false]

theorem searchMermaid_skip (p t : Str) (hp : ∀ c ∈ p, ¬ c = bq) :
    searchMermaid (p ++ t) = searchMermaid t := by
  induction p with
  | nil => rw [List.nil_append]
  | cons c p ih =>
    have hc : ¬ c = bq := hp c (List.mem_cons_self c p)
    have hno : mOpen.isPrefixOf (c :: (p ++ t)) = false := by
      rw [mOpen_eq]
      exact ipo_ne_head _ hc _
    rw [List.cons_append, searchMermaid_cons_neg hno]
    exact ih (fun x hx => hp x (List.mem_cons_of_mem c hx))

theorem searchMermaid_open_found {u : Str} {j : Nat}
    (hf : listFind mFence u = some j) :
    searchMermaid (mOpen ++ u) = some (u.take j) := by
  have hsh : mOpen ++ u = bq :: ("``mermaid".data ++ u) := by
    rw [mOpen_eq, List.cons_append]
  have hpre : mOpen.isPrefixOf (bq :: ("``mermaid".data ++ u)) = true := by
    rw [← hsh]
    exact ipo_self_append mOpen u
  have hf' : listFind mFence ((bq :: ("``mermaid".data ++ u)).drop mOpen.length)
      = some j := by
    rw [← hsh, List.drop_left]
    exact hf
  rw [hsh, searchMermaid_cons_pos_some hpre hf', ← hsh, List.drop_left]

theorem fence_find_wrapper {M : Str} (hfence : containsSub mFence M = false) :
    listFind mFence ('\n' :: (M ++ '\n' :: (mFence ++ ['\n']))) = some (M.length + 2) := by
  have hM := (containsSub_eq_false_iff mFence M).1 hfence
  apply (listFind_eq_some_iff mFence _ _).2
  constructor
  · rw [show M.length + 2 = (M.length + 1) + 1 from rfl, List.drop_succ_cons,
      List.drop_append_eq_append_drop,
      List.drop_eq_nil_of_le (Nat.le_succ M.length),
      show M.length + 1 - M.length = 1 from by omega, List.drop_succ_cons,
      List.drop_zero, List.nil_append]
    exact ipo_self_append mFence ['\n']
  · intro j' hj'
    cases j' with
    | zero =>
      rw [List.drop_zero, mFence_eq]
      exact ipo_ne_head _ (by decide) _
    | succ k =>
      have hk : k ≤ M.length := by omega
      rw [List.drop_succ_cons, List.drop_append_eq_append_drop,
        Nat.sub_eq_zero_of_le hk, List.drop_zero]
      rcases hd : M.drop k with _ | ⟨x, d⟩
      · rw [List.nil_append, mFence_eq]
        exact ipo_ne_head _ (by decide) _
      · rcases d with _ | ⟨y, d⟩
        · rw [List.cons_append, List.nil_append]
          exact mFence_ipo_two x _
        · rcases d with _ | ⟨z, d⟩
          · rw [List.cons_append, List.cons_append, List.nil_append]
            exact mFence_ipo_three x y _
          · have h3 : mFence.length ≤ (x :: y :: z :: d).length := by
              rw [show mFence.length = 3 from by decide]
              simp only [List.length_cons]
              omega
            rw [ipo_append_long _ h3, ← hd]
            exact hM k

/-- Claim C2 as stated is refuted at the markup " a " (leading and
trailing whitespace): round-tripping through the fixed template returns
the trimmed string "a", not " a ". -/
theorem c2_counterexample :
    extract_mermaid_code (save_to_readme_content (" a ".data)) = some ("a".data) ∧
      ¬ extract_mermaid_code (save_to_readme_content (" a ".data)) = some (" a ".data) := by
  decide

/-- Claim C2 amended: for every markup M that contains no fence delimiter
and carries no leading or trailing whitespace (so that trimming fixes
it), writing M with save_to_readme and re-extracting from the resulting
file contents yields M unchanged. -/
theorem c2_roundtrip_amended (M : Str)
    (hfence : containsSub mFence M = false) (hstrip : pyStrip M = M) :
    extract_mermaid_code (save_to_readme_content M) = some M := by
  have hdecomp : save_to_readme_content M
      = "## Mermaid Diagram\n".data
          ++ (mOpen ++ ('\n' :: (M ++ '\n' :: (mFence ++ ['\n'])))) := by
    unfold save_to_readme_content
    rw [show ("## Mermaid Diagram\n```mermaid\n".data : Str)
        = "## Mermaid Diagram\n".data ++ (mOpen ++ ['\n']) from by decide]
    rw [show ("\n```\n".data : Str) = '\n' :: (mFence ++ ['\n']) from by decide]
    simp [List.append_assoc]
  rw [hdecomp]
  unfold extract_mermaid_code
  rw [searchMermaid_skip ("## Mermaid Diagram\n".data)
    (mOpen ++ ('\n' :: (M ++ '\n' :: (mFence ++ ['\n'])))) (by decide)]
  rw [searchMermaid_open_found (fence_find_wrapper hfence)]
  have htake : (('\n' :: (M ++ '\n' :: (mFence ++ ['\n'])))).take (M.length + 2)
      = '\n' :: (M ++ ['\n']) := by
    rw [show M.length + 2 = (M.length + 1) + 1 from rfl, List.take_succ_cons,
      List.take_append_eq_append_take, List.take_of_length_le (Nat.le_succ M.length),
      show M.length + 1 - M.length = 1 from by omega]
    rfl
  rw [htake, Option.map_some', pyStrip_cons_space (by decide),
    pyStrip_append_space (by decide), hstrip]

theorem c2_roundtrip_amended_witness :
    extract_mermaid_code (save_to_readme_content ("graph TD".data))
      = some ("graph TD".data) :=
  c2_roundtrip_amended ("graph TD".data) (by decide) (by decide)

/-! ### The happy path and the rendered page (claim C7) -/

theorem escChar_no_lt (c : Char) : ∀ x ∈ escChar c, ¬ x = '<' := by
  unfold escChar
  split_ifs with h1 h2 h3 h4 h5
  · decide
  · decide
  · decide
  · decide
  · decide
  · intro x hx
    rw [List.mem_singleton] at hx
    subst hx
    exact h2

theorem htmlEscape_no_lt (s : Str) : ∀ x ∈ htmlEscape s, ¬ x = '<' := by
  induction s with
  | nil =>
    intro x hx
    exact absurd hx (List.not_mem_nil x)
  | cons c t ih =>
    intro x hx
    have hun : htmlEscape (c :: t) = escChar c ++ htmlEscape t := rfl
    rw [hun] at hx
    rcases List.mem_append.1 hx with hx | hx
    · exact escChar_no_lt c x hx
    · exact ih x hx

theorem listFind_no_head {a : Char} (p : Str) {s : Str} (h : ∀ c ∈ s, ¬ c = a) :
    listFind (a :: p) s = none := by
  rw [listFind_eq_none_iff]
  intro j
  rcases hd : s.drop j with _ | ⟨c, d⟩
  · exact ipo_nil_right a p
  · have hc : c ∈ s := List.drop_subset _ _ (by rw [hd]; exact List.mem_cons_self c d)
    exact ipo_ne_head p (h c hc) d

theorem listFind_cons_pat_append_none {hd : Char} {q : Str} {a r : Str}
    (h1 : listFind (hd :: q) a = none)
    (h2 : listFind (hd :: q) r = none)
    (h3 : ∀ c ∈ a.drop (a.length - q.length), ¬ c = hd) :
    listFind (hd :: q) (a ++ r) = none := by
  rw [listFind_eq_none_iff]
  intro j
  rcases Nat.lt_or_ge j a.length with hj | hj
  · rw [List.drop_append_eq_append_drop, Nat.sub_eq_zero_of_le (Nat.le_of_lt hj),
      List.drop_zero]
    rcases Nat.lt_or_ge j (a.length - q.length) with hj3 | hj3
    · have hlen : (hd :: q).length ≤ (a.drop j).length := by
        rw [List.length_cons, List.length_drop]
        omega
      rw [ipo_append_long _ hlen]
      exact (listFind_eq_none_iff _ _).1 h1 j
    · rcases hd2 : a.drop j with _ | ⟨c, d⟩
      · exfalso
        have hlen := List.length_drop j a
        rw [hd2] at hlen
        simp only [List.length_nil] at hlen
        omega
      · rw [List.cons_append]
        have hsub : a.drop j = (a.drop (a.length - q.length)).drop (j - (a.length - q.length)) := by
          rw [List.drop_drop]
          congr 1
          omega
        have hc : c ∈ a.drop (a.length - q.length) := by
          have hmem : c ∈ a.drop j := by
            rw [hd2]
            exact List.mem_cons_self c d
          rw [hsub] at hmem
          exact List.drop_subset _ _ hmem
        exact ipo_ne_head q (h3 c hc) _
  · rw [List.drop_append_eq_append_drop, List.drop_eq_nil_of_le hj, List.nil_append]
    exact (listFind_eq_none_iff _ _).1 h2 (j - a.length)

theorem imgPat_eq : imgPat = '<' :: "img src=\"/get_png\"".data := by decide

set_option maxRecDepth 8192 in
/-- The page rendered for a truthy mermaid_code without the PNG section
contains no occurrence of the img tag. -/
theorem renderBody_no_img {code : Str} (hce : code.isEmpty = false) :
    containsSub imgPat (renderBody code false) = false := by
  have hb : renderBody code false
      = (tplHead ++ tplPreOpen)
          ++ (htmlEscape code ++ (tplPreClose ++ (tplMid ++ tplTail))) := by
    simp [renderBody, hce, List.append_assoc]
  rw [hb]
  unfold containsSub
  rw [imgPat_eq]
  have hinner : listFind ('<' :: "img src=\"/get_png\"".data)
      (htmlEscape code ++ (tplPreClose ++ (tplMid ++ tplTail))) = none := by
    apply listFind_cons_pat_append_none
    · exact listFind_no_head _ (htmlEscape_no_lt code)
    · decide
    · intro c hc
      exact htmlEscape_no_lt code c (List.drop_subset _ _ hc)
  have h1' : listFind ('<' :: "img src=\"/get_png\"".data) (tplHead ++ tplPreOpen)
      = none := by decide
  have h3' : ∀ c ∈ (tplHead ++ tplPreOpen).drop
      ((tplHead ++ tplPreOpen).length - ("img src=\"/get_png\"".data).length),
      ¬ c = '<' := by decide
  rw [listFind_cons_pat_append_none h1' hinner h3']
  rfl

/-- The page rendered for a truthy mermaid_code with the PNG section
contains the img tag referencing the image route. -/
theorem renderBody_has_img {code : Str} (hce : code.isEmpty = false) :
    containsSub imgPat (renderBody code true) = true := by
  apply (containsSub_parts _ _).2
  refine ⟨tplHead ++ (tplPreOpen ++ htmlEscape code ++ tplPreClose) ++ tplMid ++ imgSecPre,
    imgSecPost ++ tplTail, ?_⟩
  simp [renderBody, imgSection, hce, List.append_assoc]

/-- The rendered page contains the escaped diagram text. -/
theorem renderBody_has_code {code : Str} (hce : code.isEmpty = false) (png : Bool) :
    containsSub (htmlEscape code) (renderBody code png) = true := by
  apply (containsSub_parts _ _).2
  refine ⟨tplHead ++ tplPreOpen,
    tplPreClose ++ (tplMid ++ ((if png then imgSection else []) ++ tplTail)), ?_⟩
  simp [renderBody, hce, List.append_assoc]

/-- Claim C7: on a structurally valid request whose model reply holds a
fenced diagram block with truthy interior, the handler runs every stage
and answers 200 with a page whose diagram slot is the extracted markup;
the rendered body contains the (HTML-escaped) extracted text, and it
contains the img tag referencing the image-fetch route exactly when the
renderer reported success. -/
theorem c7_happy_path (body : ReqBody) (env : WorldEnv) (reply code : Str) (png : Bool)
    (hv : validBody body) (hg : env.genResult = some reply) (hre : reply ≠ [])
    (hx : extract_mermaid_code reply = some code) (hcode : code ≠ [])
    (hpng : png = convert_readme_to_png
      ⟨if env.saveOk then some (save_to_readme_content code) else env.initialReadme,
        env.writeTempOk, env.imgkitOk, env.removeOk⟩) :
    mermaid_endpoint body env = ⟨.page code png 200, true, true, true, true⟩ ∧
      containsSub (htmlEscape code) ((Resp.page code png 200).bodyOf) = true ∧
      (containsSub imgPat ((Resp.page code png 200).bodyOf) = true ↔ png = true) := by
  have hce : code.isEmpty = false := by
    cases code with
    | nil => exact absurd rfl hcode
    | cons a l => rfl
  have hre' : reply.isEmpty = false := by
    cases reply with
    | nil => exact absurd rfl hre
    | cons a l => rfl
  refine ⟨?_, ?_, ?_⟩
  · rcases hv with ⟨entries, pd, rfl, hl⟩
    rw [hpng]
    simp [mermaid_endpoint, lookup_ne_nil hl, hl, hg, hre', hx, hce]
  · exact renderBody_has_code hce png
  · show containsSub imgPat (renderBody code png) = true ↔ png = true
    cases png with
    | false => rw [renderBody_no_img hce]
    | true => rw [renderBody_has_img hce]

theorem c7_happy_path_witness :
    mermaid_endpoint (some [(pdKey, "todo app".data)])
        ⟨some ("ok ```mermaid\ngraph TD;\n``` end".data), true, none, true, true, true⟩
      = ⟨.page ("graph TD;".data) true 200, true, true, true, true⟩ ∧
      containsSub (htmlEscape ("graph TD;".data))
        ((Resp.page ("graph TD;".data) true 200).bodyOf) = true ∧
      (containsSub imgPat ((Resp.page ("graph TD;".data) true 200).bodyOf) = true
        ↔ true = true) :=
  c7_happy_path (some [(pdKey, "todo app".data)])
    ⟨some ("ok ```mermaid\ngraph TD;\n``` end".data), true, none, true, true, true⟩
    ("ok ```mermaid\ngraph TD;\n``` end".data) ("graph TD;".data) true
    ⟨[(pdKey, "todo app".data)], "todo app".data, rfl, by decide⟩
    rfl (by decide) (by decide) (by decide) (by decide)
